import Mathlib

/-!
# Eraser tool (`core_lib/src/tool/erasertool.cpp`)

A shallow embedding of `EraserTool` and the properties of its settings
handling, its pressure dependent brush width, its dab spacing and its vector
vertex selection.

Modelling conventions:

* `qreal` (a C++ `double`) is modelled by `ℚ`: arithmetic is exact, there is no
  rounding, no infinity and no NaN.
* `int` is modelled by `ℤ` (no overflow).
* `QLineF::length()` takes a square root, which has no rational value in
  general: the value it returns is an input (`Env.lineLength`), like every other
  value read from Qt, and the theorems hold for whatever value is returned.
* The collaborators of the tool (`QSettings`, `ScribbleArea`, `StrokeManager`,
  the layer and its `VectorImage`) are outside this file.  What the tool reads
  from them is an explicit input, what the tool asks of them is recorded, in
  program order, in a list of `Call`s.
-/

namespace Pencil

/-! ## Qt numerics -/

/-- Conversion of a `double` to `int` as C++ does it: the fractional part is
discarded (rounding toward zero). -/
def truncToInt (x : ℚ) : ℤ :=
  if 0 ≤ x then ⌊x⌋ else ⌈x⌉

/-- Qt 5 `qRound(double d)`:
`d >= 0.0 ? int(d + 0.5) : int(d - double(int(d-1)) + 0.5) + int(d-1)`. -/
def qRound (d : ℚ) : ℤ :=
  if 0 ≤ d then truncToInt (d + 1/2)
  else truncToInt (d - (truncToInt (d - 1) : ℚ) + 1/2) + truncToInt (d - 1)

/-- Qt `qMax(a, b)`: `(a < b) ? b : a`. -/
def qMax (a b : ℚ) : ℚ :=
  if a < b then b else a

/-- A division whose divisor is a run time value: `none` stands for a division
by zero. -/
def checkedDiv (x d : ℚ) : Option ℚ :=
  if d = 0 then none else some (x / d)

/-- The precision of `approxSqrt`: results are rounded down to a multiple of
`1 / (q.den * 2^52)`. -/
def sqrtScale : ℕ := 2 ^ 52

/-- A rational square root for the example environments, rounded down to a
multiple of `1 / (q.den * sqrtScale)`; it is exact whenever `q` is the square of
a rational number, which is the case in all examples below. -/
def approxSqrt (q : ℚ) : ℚ :=
  (Nat.sqrt (q.num.toNat * q.den * (sqrtScale * sqrtScale)) : ℚ) /
    ((q.den * sqrtScale : ℕ) : ℚ)

/-! ## Points -/

/-- Qt `QPointF`. -/
structure QPointF where
  x : ℚ
  y : ℚ
  deriving DecidableEq

/-- Qt `QPoint`. -/
structure QPoint where
  x : ℤ
  y : ℤ
  deriving DecidableEq

namespace QPointF

/-- Sum `QPointF + QPointF`. -/
def add (p q : QPointF) : QPointF := ⟨p.x + q.x, p.y + q.y⟩

/-- Difference `QPointF - QPointF`. -/
def sub (p q : QPointF) : QPointF := ⟨p.x - q.x, p.y - q.y⟩

/-- Product `qreal * QPointF`. -/
def smul (c : ℚ) (p : QPointF) : QPointF := ⟨c * p.x, c * p.y⟩

/-- Quotient `QPointF / qreal`: both coordinates are divided by the divisor. -/
def div (p : QPointF) (d : ℚ) : Option QPointF :=
  match checkedDiv p.x d, checkedDiv p.y d with
  | some x, some y => some ⟨x, y⟩
  | _, _ => none

/-- Qt `QPointF::toPoint()`: both coordinates rounded with `qRound`. -/
def toPoint (p : QPointF) : QPoint := ⟨qRound p.x, qRound p.y⟩

end QPointF

/-- Squared Euclidean distance of two points, `dx*dx + dy*dy`. -/
def lengthSq (p q : QPointF) : ℚ :=
  (q.x - p.x) * (q.x - p.x) + (q.y - p.y) * (q.y - p.y)

/-! ## Settings store -/

/-- The values this tool stores in `QSettings`, as `QVariant`s. -/
inductive QVariant where
  | bool (b : Bool)
  | int (n : ℤ)
  | double (d : ℚ)
  deriving DecidableEq

namespace QVariant

/-- Qt `QVariant::toDouble()`. -/
def toDouble : QVariant → ℚ
  | bool b => if b then 1 else 0
  | int n => (n : ℚ)
  | double d => d

/-- Qt `QVariant::toBool()`: numbers convert to `true` when they are not zero. -/
def toBool : QVariant → Bool
  | bool b => b
  | int n => decide (n ≠ 0)
  | double d => decide (d ≠ 0)

/-- Qt `QVariant::toInt()`: a `double` is rounded. -/
def toInt : QVariant → ℤ
  | bool b => if b then 1 else 0
  | int n => n
  | double d => qRound d

end QVariant

/-- The contents of `QSettings(PENCIL2D, PENCIL2D)`: what is stored under each
key, if anything. -/
def QSettings : Type := String → Option QVariant

namespace QSettings

/-- Qt `settings.value(key, defaultValue)`. -/
def value (s : QSettings) (key : String) (defaultValue : QVariant) : QVariant :=
  match s key with
  | some v => v
  | none => defaultValue

/-- Qt `settings.setValue(key, v)`. -/
def setValue (s : QSettings) (key : String) (v : QVariant) : QSettings :=
  fun k => if k = key then some v else s k

/-- The store with no key. -/
def empty : QSettings := fun _ => none

end QSettings

/-! ## Tool state -/

/-- Modelled from the spec: `pencildef.h` is not among the sources; `ON` is the
"on" mode of the `useAA` enum `{OFF, ON, AUTO(-1)}`, the documented default
`AA=1`. -/
def ON : ℤ := 1

/-- Modelled from the spec: `pencildef.h` is not among the sources; `OFF` is the
"off" mode of the `useAA` enum `{OFF, ON, AUTO(-1)}`. -/
def OFF : ℤ := 0

/-- Modelled from the spec: `pencildef.h` is not among the sources; `DISABLED`
is the value `-1` that the spec calls `AUTO`. -/
def DISABLED : ℤ := -1

/-- Modelled from the spec: `StabilizationLevel::NONE`, documented as
`stabilizerLevel(int, 0/NONE)`. -/
def StabilizationLevel.NONE : ℤ := 0

/-- The tool properties that `loadSettings` enables in `mPropertyEnabled`. -/
inductive ToolPropertyType where
  | WIDTH
  | FEATHER
  | USEFEATHER
  | PRESSURE
  | STABILIZATION
  | ANTI_ALIASING
  deriving DecidableEq

/-- The fields of `properties` that the eraser uses. -/
structure Properties where
  width : ℚ
  feather : ℚ
  useFeather : Bool
  pressure : Bool
  invisibility : ℤ
  preserveAlpha : ℤ
  stabilizerLevel : ℤ
  useAA : ℤ
  deriving DecidableEq

/-- The member variables of `EraserTool`. -/
structure EraserTool where
  properties : Properties
  mPropertyEnabled : ToolPropertyType → Bool
  mLastBrushPoint : QPointF
  mMouseDownPoint : QPointF
  mCurrentPressure : ℚ
  mCurrentWidth : ℚ

/-- Assignment `mPropertyEnabled[k] = v`. -/
def setEnabled (m : ToolPropertyType → Bool) (k : ToolPropertyType) (v : Bool) :
    ToolPropertyType → Bool :=
  fun j => if j = k then v else m j

/-! ## Settings: `loadSettings`, the setters, `resetToDefault` -/

/-- Method `EraserTool::loadSettings()`. -/
def loadSettings (settings : QSettings) (t : EraserTool) : EraserTool :=
  let en := setEnabled t.mPropertyEnabled .WIDTH true
  let en := setEnabled en .USEFEATHER true
  let en := setEnabled en .FEATHER true
  let en := setEnabled en .USEFEATHER true
  let en := setEnabled en .PRESSURE true
  let en := setEnabled en .STABILIZATION true
  let en := setEnabled en .ANTI_ALIASING true
  let p := t.properties
  let p := { p with width := (settings.value "eraserWidth" (.double 24)).toDouble }
  let p := { p with feather := (settings.value "eraserFeather" (.double 48)).toDouble }
  let p := { p with useFeather := (settings.value "eraserUseFeather" (.bool true)).toBool }
  let p := { p with pressure := (settings.value "eraserPressure" (.bool true)).toBool }
  let p := { p with invisibility := DISABLED }
  let p := { p with preserveAlpha := OFF }
  let p := { p with stabilizerLevel :=
    (settings.value "stabilizerLevel" (.int StabilizationLevel.NONE)).toInt }
  let p := { p with useAA := (settings.value "eraserAA" (.int 1)).toInt }
  let p := if p.useFeather then { p with useAA := -1 } else p
  { t with mPropertyEnabled := en, properties := p }

/-- The tool together with the settings store it persists to. -/
structure World where
  tool : EraserTool
  settings : QSettings

/-- Method `EraserTool::setWidth(width)`. -/
def setWidth (width : ℚ) (w : World) : World :=
  { tool := { w.tool with properties := { w.tool.properties with width := width } }
    settings := w.settings.setValue "eraserWidth" (.double width) }

/-- Method `EraserTool::setUseFeather(usingFeather)`. -/
def setUseFeather (usingFeather : Bool) (w : World) : World :=
  { tool := { w.tool with properties := { w.tool.properties with useFeather := usingFeather } }
    settings := w.settings.setValue "eraserUseFeather" (.bool usingFeather) }

/-- Method `EraserTool::setFeather(feather)`. -/
def setFeather (feather : ℚ) (w : World) : World :=
  { tool := { w.tool with properties := { w.tool.properties with feather := feather } }
    settings := w.settings.setValue "eraserFeather" (.double feather) }

/-- Method `EraserTool::setPressure(pressure)`. -/
def setPressure (pressure : Bool) (w : World) : World :=
  { tool := { w.tool with properties := { w.tool.properties with pressure := pressure } }
    settings := w.settings.setValue "eraserPressure" (.bool pressure) }

/-- Method `EraserTool::setAA(AA)`. -/
def setAA (AA : ℤ) (w : World) : World :=
  { tool := { w.tool with properties := { w.tool.properties with useAA := AA } }
    settings := w.settings.setValue "eraserAA" (.int AA) }

/-- Method `EraserTool::setStabilizerLevel(level)`. -/
def setStabilizerLevel (level : ℤ) (w : World) : World :=
  { tool := { w.tool with properties := { w.tool.properties with stabilizerLevel := level } }
    settings := w.settings.setValue "stabilizerLevel" (.int level) }

/-- Method `EraserTool::resetToDefault()`; `setAA(true)` passes `1`. -/
def resetToDefault (w : World) : World :=
  let w := setWidth 24 w
  let w := setFeather 48 w
  let w := setUseFeather true w
  let w := setPressure true w
  let w := setAA 1 w
  setStabilizerLevel StabilizationLevel.NONE w

/-- Method `loadSettings()` on the tool of a world; the store is only read. -/
def World.load (w : World) : World :=
  { w with tool := loadSettings w.settings w.tool }

/-- One call on the settings interface of the tool. -/
inductive SettingsOp where
  | resetToDefault
  | setWidth (width : ℚ)
  | setFeather (feather : ℚ)
  | setUseFeather (usingFeather : Bool)
  | setPressure (pressure : Bool)
  | setAA (AA : ℤ)
  | setStabilizerLevel (level : ℤ)

/-- The effect of one call. -/
def SettingsOp.apply : SettingsOp → World → World
  | .resetToDefault => Pencil.resetToDefault
  | .setWidth v => Pencil.setWidth v
  | .setFeather v => Pencil.setFeather v
  | .setUseFeather v => Pencil.setUseFeather v
  | .setPressure v => Pencil.setPressure v
  | .setAA v => Pencil.setAA v
  | .setStabilizerLevel v => Pencil.setStabilizerLevel v

/-- A sequence of calls, executed from left to right. -/
def runOps (ops : List SettingsOp) (w : World) : World :=
  ops.foldl (fun acc op => op.apply acc) w

/-- The calls that leave both `useFeather` and `useAA` as `loadSettings` made
them: everything but `resetToDefault`, `setUseFeather(true)` and a `setAA` with
a value other than `-1`. -/
def SettingsOp.keepsAuto : SettingsOp → Bool
  | .resetToDefault => false
  | .setUseFeather v => !v
  | .setAA v => decide (v = -1)
  | _ => true

/-- A tool before `loadSettings` has run, used in examples. -/
def EraserTool.initial : EraserTool :=
  { properties := ⟨0, 0, false, false, 0, 0, 0, 0⟩
    mPropertyEnabled := fun _ => false
    mLastBrushPoint := ⟨0, 0⟩
    mMouseDownPoint := ⟨0, 0⟩
    mCurrentPressure := 0
    mCurrentWidth := 0 }

/-! ## Collaborators -/

/-- Result of `Layer::type()`; `OTHER` stands for the layer kinds the eraser ignores. -/
inductive LayerType where
  | BITMAP
  | VECTOR
  | OTHER
  deriving DecidableEq

/-- Type `VertexRef`: a vertex of a curve of a vector image. -/
structure VertexRef where
  curveNumber : ℤ
  vertexNumber : ℤ
  deriving DecidableEq

/-- Modelled from the spec: `BlitRect` (`blitrect.h` is not among the sources),
the accumulating bounding rectangle of the points touched during one erase
operation, represented by the points it has been extended with, oldest first. -/
structure BlitRect where
  points : List QPoint
  deriving DecidableEq

/-- Modelled from the spec: `rect.extend(p)` adds a point to the rectangle. -/
def BlitRect.extend (r : BlitRect) (p : QPoint) : BlitRect :=
  ⟨r.points ++ [p]⟩

/-- Qt `QColor(r, g, b, a)`. -/
structure QColor where
  r : ℕ
  g : ℕ
  b : ℕ
  a : ℕ
  deriving DecidableEq

/-- What the tool asks of its collaborators. -/
inductive Call where
  | setAllDirty
  | startStroke
  | endStroke
  | backup
  | strokeToolDrawStroke
  | interpolateStroke
  | drawBrush (point : QPointF) (width feather : ℚ) (color : QColor) (opacity : ℚ)
      (useFeather useAA : Bool)
  | paintBitmapBufferRect (rect : BlitRect)
  | refreshBitmap (rect : BlitRect) (rad : ℤ)
  | drawPath (p0 p1 p2 p3 : QPointF) (penWidth : ℚ)
  | refreshVector (p0 p1 p2 p3 : QPointF) (rad : ℤ)
  | paintBitmapBuffer
  | clearBitmapBuffer
  | deleteSelectedPoints
  | setModified
  | getVerticesCloseTo (point : QPointF) (radius : ℚ)
  | setSelected (v : VertexRef) (selected : Bool)
  | setStabilizerLevel (level : ℤ)
  deriving DecidableEq

/-- What the tool reads from its collaborators while it handles one pointer
event. -/
structure Env where
  /-- Value of `mEditor->layers()->currentLayer()->type()` -/
  layerType : LayerType
  /-- Value of `strokeManager()->getPressure()` -/
  pressure : ℚ
  /-- Value of `getCurrentPoint()` -/
  currentPoint : QPointF
  /-- Value of `strokeManager()->interpolateStroke()` -/
  interpolated : List QPointF
  /-- Value of `mEditor->view()->mapScreenToCanvas(p)` -/
  mapScreenToCanvas : QPointF → QPointF
  /-- Value of `currKey->getVerticesCloseTo(p, radius)` -/
  verticesCloseTo : QPointF → ℚ → List VertexRef
  /-- Value of `strokeManager()->getStabilizerLevel()` -/
  stabilizerLevel : ℤ
  /-- Value of `event->buttons() & Qt::LeftButton` -/
  leftButton : Bool
  /-- Value of `QLineF(p, q).length()`, the square root of `dx*dx + dy*dy`.  A
  square root is not a rational function, so the value the call returns is an
  input, together with the three facts about it that the proofs use. -/
  lineLength : QPointF → QPointF → ℚ
  /-- A length is not negative. -/
  lineLength_nonneg : ∀ p q, 0 ≤ lineLength p q
  /-- The length of a line from a point to itself is zero. -/
  lineLength_self : ∀ p, lineLength p p = 0
  /-- A length is below 1 exactly when `dx*dx + dy*dy` is. -/
  lineLength_lt_one_iff : ∀ p q, lineLength p q < 1 ↔ lengthSq p q < 1

/-! ## Painting -/

/-- The brush width `mCurrentWidth` that `paintAt` and `drawStroke` compute:
`properties.width`, replaced by `(width + pressure * width) * 0.5` when
`properties.pressure` is set. -/
def currentWidth (props : Properties) (pressure : ℚ) : ℚ :=
  let mCurrentWidth := props.width
  if props.pressure then (mCurrentWidth + pressure * mCurrentWidth) * (1/2) else mCurrentWidth

/-- The `opacity` local of `paintAt` and `drawStroke`. -/
def currentOpacity (props : Properties) (pressure : ℚ) : ℚ :=
  if props.pressure then pressure else 1

/-- The `rad` local: `qRound(brushWidth) / 2 + 2`, an `int` division. -/
def refreshRadius (brushWidth : ℚ) : ℤ :=
  (qRound brushWidth).tdiv 2 + 2

/-- The `drawBrush` call that `paintAt` and `drawStroke` issue for one dab. -/
def brushCall (props : Properties) (brushWidth opacity : ℚ) (point : QPointF) : Call :=
  .drawBrush point brushWidth props.feather ⟨255, 255, 255, 255⟩ opacity props.useFeather
    (decide (props.useAA = ON))

/-- Method `EraserTool::paintAt(point)`. -/
def paintAt (env : Env) (point : QPointF) (t : EraserTool) : EraserTool × List Call :=
  if env.layerType = .BITMAP then
    let opacity := currentOpacity t.properties env.pressure
    let t := { t with mCurrentWidth := currentWidth t.properties env.pressure }
    let brushWidth := t.mCurrentWidth
    let rect : BlitRect := ⟨[]⟩
    let rect := rect.extend point.toPoint
    let rad := refreshRadius brushWidth
    (t, [brushCall t.properties brushWidth opacity point,
         .paintBitmapBufferRect rect,
         .refreshBitmap rect rad])
  else
    (t, [])

/-- The `brushStep` local of `drawStroke`:
`qMax(1.0, 0.5 * brushWidth - (feather / 100.0) * brushWidth * 0.5)`. -/
def brushStep (props : Properties) (brushWidth : ℚ) : ℚ :=
  qMax 1 ((1/2) * brushWidth - (props.feather / 100) * brushWidth * (1/2))

/-- The `distance` local of `drawStroke`: `4 * QLineF(b, a).length()`. -/
def strokeDistance (env : Env) (a b : QPointF) : ℚ :=
  4 * env.lineLength b a

/-- The `steps` local of `drawStroke`: `qRound(distance) / brushStep`, a
`double` division whose result is converted to `int`. -/
def strokeSteps (distance brushStep : ℚ) : Option ℤ :=
  (checkedDiv (qRound distance : ℚ) brushStep).map truncToInt

/-- The variables the dab loop of `drawStroke` updates. -/
structure StrokeLoop where
  mLastBrushPoint : QPointF
  rect : BlitRect
  calls : List Call

/-- One iteration of the dab loop of `drawStroke`, for loop index `i`. -/
def strokeLoopBody (props : Properties) (brushWidth opacity brushStep distance : ℚ)
    (b : QPointF) (steps : ℤ) (i : ℤ) (st : StrokeLoop) : Option StrokeLoop :=
  match QPointF.div (QPointF.smul (((i + 1 : ℤ) : ℚ) * brushStep)
      (QPointF.sub b st.mLastBrushPoint)) distance with
  | none => none
  | some d =>
    let point := QPointF.add st.mLastBrushPoint d
    some { rect := st.rect.extend point.toPoint
           calls := st.calls ++ [brushCall props brushWidth opacity point]
           mLastBrushPoint := if i = steps - 1 then point else st.mLastBrushPoint }

/-- The loop `for (int i = 0; i < steps; i++)` of `drawStroke`, with `n`
iterations left to run and loop index `i`. -/
def strokeLoop (props : Properties) (brushWidth opacity brushStep distance : ℚ)
    (b : QPointF) (steps : ℤ) : ℕ → ℤ → StrokeLoop → Option StrokeLoop
  | 0, _, st => some st
  | n + 1, i, st =>
    match strokeLoopBody props brushWidth opacity brushStep distance b steps i st with
    | none => none
    | some st => strokeLoop props brushWidth opacity brushStep distance b steps n (i + 1) st

/-- Method `EraserTool::drawStroke()`; `none` when a division by zero is evaluated. -/
def drawStroke (env : Env) (t : EraserTool) : Option (EraserTool × List Call) :=
  let entry : List Call := [.strokeToolDrawStroke, .interpolateStroke]
  let p := env.interpolated
  if env.layerType = .BITMAP then
    let _p := p.map env.mapScreenToCanvas
    let opacity := currentOpacity t.properties env.pressure
    let t := { t with mCurrentWidth := currentWidth t.properties env.pressure }
    let brushWidth := t.mCurrentWidth
    let brushStep := brushStep t.properties brushWidth
    let a := t.mLastBrushPoint
    let b := env.currentPoint
    let distance := strokeDistance env a b
    match strokeSteps distance brushStep with
    | none => none
    | some steps =>
      match strokeLoop t.properties brushWidth opacity brushStep distance b steps
          steps.toNat 0 ⟨t.mLastBrushPoint, ⟨[]⟩, []⟩ with
      | none => none
      | some st =>
        let rad := refreshRadius brushWidth
        some ({ t with mLastBrushPoint := st.mLastBrushPoint },
          entry ++ st.calls ++ [.paintBitmapBufferRect st.rect, .refreshBitmap st.rect rad])
  else if env.layerType = .VECTOR then
    let t := { t with mCurrentWidth := currentWidth t.properties env.pressure }
    let brushWidth := t.mCurrentWidth
    let rad := refreshRadius brushWidth
    match p with
    | [p0, p1, p2, p3] =>
      some (t, entry ++ [.drawPath p0 p1 p2 p3 brushWidth, .refreshVector p0 p1 p2 p3 rad])
    | _ => some (t, entry)
  else
    some (t, entry)

/-- Method `EraserTool::removeVectorPaint()`. -/
def removeVectorPaint (env : Env) : List Call :=
  if env.layerType = .BITMAP then
    [.paintBitmapBuffer, .setAllDirty, .clearBitmapBuffer]
  else if env.layerType = .VECTOR then
    [.clearBitmapBuffer, .deleteSelectedPoints, .setModified, .setAllDirty]
  else
    []

/-- Method `EraserTool::updateStrokes()`. -/
def updateStrokes (env : Env) (t : EraserTool) : Option (EraserTool × List Call) :=
  let drawn : Option (EraserTool × List Call) :=
    if env.layerType = .BITMAP ∨ env.layerType = .VECTOR then drawStroke env t
    else some (t, [])
  match drawn with
  | none => none
  | some (t, calls) =>
    if env.layerType = .VECTOR then
      let radius := t.properties.width / 2
      let nearbyVertices := env.verticesCloseTo env.currentPoint radius
      some (t, calls ++ [.getVerticesCloseTo env.currentPoint radius]
        ++ nearbyVertices.map (fun nearbyVertice => Call.setSelected nearbyVertice true)
        ++ [.setAllDirty])
    else
      some (t, calls)

/-! ## Pointer events -/

/-- Method `EraserTool::pointerPressEvent`. -/
def pointerPressEvent (env : Env) (t : EraserTool) : EraserTool × List Call :=
  ({ t with mLastBrushPoint := env.currentPoint, mMouseDownPoint := env.currentPoint },
    [.setAllDirty, .startStroke])

/-- Method `EraserTool::pointerMoveEvent`. -/
def pointerMoveEvent (env : Env) (t : EraserTool) : Option (EraserTool × List Call) :=
  if env.leftButton then
    let t := { t with mCurrentPressure := env.pressure }
    match updateStrokes env t with
    | none => none
    | some (t, calls) =>
      if t.properties.stabilizerLevel ≠ env.stabilizerLevel then
        some (t, calls ++ [.setStabilizerLevel t.properties.stabilizerLevel])
      else
        some (t, calls)
  else
    some (t, [])

/-- Method `EraserTool::pointerReleaseEvent`. -/
def pointerReleaseEvent (env : Env) (t : EraserTool) : Option (EraserTool × List Call) :=
  let distance := env.lineLength env.currentPoint t.mMouseDownPoint
  let painted : Option (EraserTool × List Call) :=
    if distance < 1 then some (paintAt env t.mMouseDownPoint t) else drawStroke env t
  match painted with
  | none => none
  | some (t, calls) => some (t, [.backup] ++ calls ++ removeVectorPaint env ++ [.endStroke])

/-! ## Reading a list of calls -/

/-- The `drawBrush` calls of a list of calls, in order. -/
def drawBrushCalls (calls : List Call) : List Call :=
  calls.filter fun c =>
    match c with
    | .drawBrush .. => true
    | _ => false

/-- The points of the `drawBrush` calls of a list of calls, in order. -/
def dabPoints (calls : List Call) : List QPointF :=
  calls.filterMap fun c =>
    match c with
    | .drawBrush point .. => some point
    | _ => none

/-- The widths handed to the canvas by a list of calls: the `width` of each
`drawBrush` and the pen width of each `drawPath`. -/
def canvasWidths (calls : List Call) : List ℚ :=
  calls.filterMap fun c =>
    match c with
    | .drawBrush _ width .. => some width
    | .drawPath _ _ _ _ penWidth => some penWidth
    | _ => none

/-- The selection flags of the vertices of a vector image after a list of calls,
from the flags before it: `setSelected(v, b)` sets the flag of `v` to `b`; the
other calls that `updateStrokes` makes leave the flags alone. -/
def selectionAfter (selected : VertexRef → Bool) : List Call → VertexRef → Bool
  | [] => selected
  | .setSelected v b :: calls =>
    selectionAfter (fun u => if u = v then b else selected u) calls
  | _ :: calls => selectionAfter selected calls

/-- The vertex queries of a list of calls: point and radius of each
`getVerticesCloseTo`, in order. -/
def vertexQueries (calls : List Call) : List (QPointF × ℚ) :=
  calls.filterMap fun c =>
    match c with
    | .getVerticesCloseTo point radius => some (point, radius)
    | _ => none

/-- The `setSelected` calls of a list of calls, in order. -/
def setSelectedCalls (calls : List Call) : List (VertexRef × Bool) :=
  calls.filterMap fun c =>
    match c with
    | .setSelected v b => some (v, b)
    | _ => none

/-- A point lies within `radius` of a centre. -/
def withinRadius (p centre : QPointF) (radius : ℚ) : Prop :=
  0 ≤ radius ∧ lengthSq p centre ≤ radius * radius

/-- The invariant of `EraserProperties` in the spec: feathering forces the
anti-aliasing mode to `-1`. -/
def AutoInvariant (p : Properties) : Prop :=
  p.useFeather = true → p.useAA = -1

/-- The position of the dab that the loop of `drawStroke` computes for loop
index `i` when `mLastBrushPoint` is `a`, as a total function. -/
def dabPoint (a b : QPointF) (brushStep distance : ℚ) (i : ℤ) : QPointF :=
  QPointF.add a ⟨(((i + 1 : ℤ) : ℚ) * brushStep * (b.x - a.x)) / distance,
    (((i + 1 : ℤ) : ℚ) * brushStep * (b.y - a.y)) / distance⟩

/-- The point `a + t * (b - a)` of the line through `a` and `b`. -/
def alongSegment (a b : QPointF) (t : ℚ) : QPointF :=
  QPointF.add a (QPointF.smul t (QPointF.sub b a))

/-- The effective brush width in the words of the spec: `(w + p*w)/2` when
pressure sensitivity is enabled, `w` when it is not. -/
def effectiveWidth (w p : ℚ) (pressureEnabled : Bool) : ℚ :=
  if pressureEnabled then (w + p * w) / 2 else w

/-- A tool with the given properties, used in examples. -/
def EraserTool.withProperties (p : Properties) : EraserTool :=
  { EraserTool.initial with properties := p }

/-- An environment for examples: a layer of the given kind, the pointer at the
given point with the given pressure; lengths are computed with `approxSqrt`. -/
def Env.example (layerType : LayerType) (pressure : ℚ) (currentPoint : QPointF) : Env :=
  { layerType := layerType
    pressure := pressure
    currentPoint := currentPoint
    interpolated := []
    mapScreenToCanvas := id
    verticesCloseTo := fun _ _ => []
    stabilizerLevel := 0
    leftButton := true
    lineLength := fun p q => approxSqrt (lengthSq p q)
    lineLength_nonneg := fun p q => by
      unfold approxSqrt
      positivity
    lineLength_self := fun p => by
      simp [lengthSq, approxSqrt]
    lineLength_lt_one_iff := fun p q => by
      unfold approxSqrt
      have hS : 0 < sqrtScale := by unfold sqrtScale; positivity
      have hpos := (lengthSq p q).den_pos
      have hden : (0 : ℚ) < (((lengthSq p q).den * sqrtScale : ℕ) : ℚ) := by
        exact_mod_cast Nat.mul_pos hpos hS
      have hden1 : (0 : ℚ) < ((lengthSq p q).den : ℚ) := by exact_mod_cast hpos
      have hq : lengthSq p q < 1 ↔ (lengthSq p q).num < ((lengthSq p q).den : ℤ) := by
        conv_lhs => rw [← Rat.num_div_den (lengthSq p q)]
        rw [div_lt_one hden1]
        exact_mod_cast Iff.rfl
      rw [div_lt_one hden, Nat.cast_lt, Nat.sqrt_lt, hq]
      have e : (lengthSq p q).den * sqrtScale * ((lengthSq p q).den * sqrtScale) =
          (lengthSq p q).den * (lengthSq p q).den * (sqrtScale * sqrtScale) := by
        ring
      rw [e, Nat.mul_lt_mul_right (Nat.mul_pos hS hS), Nat.mul_lt_mul_right hpos]
      omega }

/-! ## Numeric lemmas -/

theorem truncToInt_of_nonneg {x : ℚ} (h : 0 ≤ x) : truncToInt x = ⌊x⌋ := by
  simp [truncToInt, h]

theorem qRound_of_nonneg {d : ℚ} (h : 0 ≤ d) : qRound d = ⌊d + 1/2⌋ := by
  have h2 : (0 : ℚ) ≤ d + 1/2 := by linarith
  simp only [qRound, h, if_true, truncToInt_of_nonneg h2]

theorem qRound_nonneg {d : ℚ} (h : 0 ≤ d) : 0 ≤ qRound d := by
  rw [qRound_of_nonneg h]
  exact Int.floor_nonneg.mpr (by linarith)

theorem qRound_le_add_half {d : ℚ} (h : 0 ≤ d) : (qRound d : ℚ) ≤ d + 1/2 := by
  rw [qRound_of_nonneg h]
  exact Int.floor_le _

theorem qRound_eq_zero_of_lt_half {d : ℚ} (h : 0 ≤ d) (h2 : d < 1/2) : qRound d = 0 := by
  rw [qRound_of_nonneg h, Int.floor_eq_zero_iff]
  constructor <;> linarith

theorem truncToInt_zero : truncToInt 0 = 0 := by
  simp [truncToInt]

theorem truncToInt_le {x : ℚ} (h : 0 ≤ x) : (truncToInt x : ℚ) ≤ x := by
  rw [truncToInt_of_nonneg h]
  exact Int.floor_le _

theorem truncToInt_nonneg {x : ℚ} (h : 0 ≤ x) : 0 ≤ truncToInt x := by
  rw [truncToInt_of_nonneg h]
  exact Int.floor_nonneg.mpr h

theorem qMax_ge_left (a b : ℚ) : a ≤ qMax a b := by
  unfold qMax
  split_ifs with h
  · exact le_of_lt h
  · exact le_refl a

theorem qMax_eq_max (a b : ℚ) : qMax a b = max a b := by
  unfold qMax
  split_ifs with h
  · exact (max_eq_right (le_of_lt h)).symm
  · exact (max_eq_left (not_lt.mp h)).symm

theorem approxSqrt_mul_self {r : ℚ} (h : 0 ≤ r) : approxSqrt (r * r) = r := by
  unfold approxSqrt
  have hS : 0 < sqrtScale := by unfold sqrtScale; positivity
  have hnum : 0 ≤ r.num := Rat.num_nonneg.mpr h
  have hsq : (r * r).num.toNat * (r * r).den * (sqrtScale * sqrtScale) =
      (r.num.toNat * r.den * sqrtScale) * (r.num.toNat * r.den * sqrtScale) := by
    rw [Rat.mul_self_num, Rat.mul_self_den]
    have : (r.num * r.num).toNat = r.num.toNat * r.num.toNat := by
      zify
      rw [Int.toNat_of_nonneg (mul_nonneg hnum hnum), Int.toNat_of_nonneg hnum]
    rw [this]
    ring
  rw [hsq, Nat.sqrt_eq, Rat.mul_self_den]
  have hden : (r.den : ℚ) ≠ 0 := by exact_mod_cast r.den_ne_zero
  have hSq : (sqrtScale : ℚ) ≠ 0 := by exact_mod_cast hS.ne'
  have hcast : ((r.num.toNat : ℕ) : ℚ) = (r.num : ℚ) := by
    have : ((r.num.toNat : ℕ) : ℤ) = r.num := Int.toNat_of_nonneg hnum
    exact_mod_cast this
  push_cast
  rw [hcast]
  conv_rhs => rw [← Rat.num_div_den r]
  field_simp
  ring

/-- In the example environments the length is exact whenever it is rational. -/
theorem example_lineLength_eq_of_sq (layerType : LayerType) (pressure : ℚ) (c : QPointF)
    {p q : QPointF} {r : ℚ} (h : 0 ≤ r) (hsq : lengthSq p q = r * r) :
    (Env.example layerType pressure c).lineLength p q = r := by
  show approxSqrt (lengthSq p q) = r
  rw [hsq, approxSqrt_mul_self h]

theorem strokeDistance_nonneg (env : Env) (a b : QPointF) : 0 ≤ strokeDistance env a b := by
  unfold strokeDistance
  have := env.lineLength_nonneg b a
  linarith

theorem brushStep_ge_one (props : Properties) (brushWidth : ℚ) :
    1 ≤ brushStep props brushWidth :=
  qMax_ge_left _ _

theorem strokeSteps_eq (distance : ℚ) {bs : ℚ} (h : 1 ≤ bs) :
    strokeSteps distance bs = some (truncToInt ((qRound distance : ℚ) / bs)) := by
  have : bs ≠ 0 := by linarith
  simp [strokeSteps, checkedDiv, this]

theorem steps_mul_le {distance bs : ℚ} (hd : 0 ≤ distance) (h : 1 ≤ bs) :
    (truncToInt ((qRound distance : ℚ) / bs) : ℚ) * bs ≤ (qRound distance : ℚ) := by
  have hbs : 0 < bs := by linarith
  have hq : (0 : ℚ) ≤ (qRound distance : ℚ) / bs :=
    div_nonneg (by exact_mod_cast qRound_nonneg hd) hbs.le
  have := truncToInt_le hq
  rwa [le_div_iff₀ hbs] at this

theorem steps_nonneg {distance bs : ℚ} (hd : 0 ≤ distance) (h : 1 ≤ bs) :
    0 ≤ truncToInt ((qRound distance : ℚ) / bs) := by
  have hbs : 0 < bs := by linarith
  exact truncToInt_nonneg (div_nonneg (by exact_mod_cast qRound_nonneg hd) hbs.le)

theorem half_le_of_steps_pos {distance bs : ℚ} (hd : 0 ≤ distance)
    (hs : 0 < truncToInt ((qRound distance : ℚ) / bs)) : 1/2 ≤ distance := by
  by_contra hlt
  push_neg at hlt
  rw [qRound_eq_zero_of_lt_half hd hlt] at hs
  simp [truncToInt_zero] at hs

/-! ## The dab loop -/

theorem QPointF.div_eq_some (p : QPointF) {d : ℚ} (hd : d ≠ 0) :
    QPointF.div p d = some ⟨p.x / d, p.y / d⟩ := by
  simp [QPointF.div, checkedDiv, hd]

theorem strokeLoopBody_eq (props : Properties) (bw op bs : ℚ) {D : ℚ} (hD : D ≠ 0)
    (b : QPointF) (steps i : ℤ) (st : StrokeLoop) :
    strokeLoopBody props bw op bs D b steps i st =
      some { rect := st.rect.extend (dabPoint st.mLastBrushPoint b bs D i).toPoint
             calls := st.calls ++ [brushCall props bw op (dabPoint st.mLastBrushPoint b bs D i)]
             mLastBrushPoint :=
               if i = steps - 1 then dabPoint st.mLastBrushPoint b bs D i
               else st.mLastBrushPoint } := by
  simp [strokeLoopBody, QPointF.div_eq_some _ hD, dabPoint, QPointF.smul, QPointF.sub]

theorem strokeLoop_spec (props : Properties) (bw op bs : ℚ) {D : ℚ} (hD : D ≠ 0)
    (b : QPointF) (steps : ℤ) :
    ∀ (n : ℕ) (i : ℤ) (st : StrokeLoop), i + n ≤ steps →
      ∃ st', strokeLoop props bw op bs D b steps n i st = some st' ∧
        st'.calls = st.calls ++ (List.range n).map
          (fun (k : ℕ) => brushCall props bw op (dabPoint st.mLastBrushPoint b bs D (i + (k : ℤ)))) ∧
        st'.mLastBrushPoint =
          if 0 < n ∧ i + n = steps then dabPoint st.mLastBrushPoint b bs D (steps - 1)
          else st.mLastBrushPoint := by
  intro n
  induction n with
  | zero =>
    intro i st _
    exact ⟨st, rfl, by simp, by simp⟩
  | succ n ih =>
    intro i st hle
    rw [strokeLoop, strokeLoopBody_eq props bw op bs hD]
    simp only
    have hle2 : (i + 1) + (n : ℤ) ≤ steps := by push_cast at hle; linarith
    obtain ⟨st2, h1, h2, h3⟩ := ih (i + 1) _ hle2
    refine ⟨st2, h1, ?_, ?_⟩
    · rw [h2, List.range_succ_eq_map, List.map_cons, List.map_map]
      simp only [List.append_assoc, List.singleton_append, Nat.cast_zero, add_zero]
      congr 2
      apply List.map_congr_left
      intro k hk
      have hkn : k < n := List.mem_range.mp hk
      have hi : i ≠ steps - 1 := by omega
      simp only [hi, if_false, Function.comp, Nat.cast_succ]
      congr 2
      ring
    · rw [h3]
      rcases Nat.eq_zero_or_pos n with hn | hn
      · subst hn
        by_cases hi : i = steps - 1
        · have e : i + 1 = steps := by omega
          simp [hi]
        · have e : ¬ (i + 1 = steps) := by omega
          simp [hi, e]
      · have hi : i ≠ steps - 1 := by omega
        have e : (i + 1 + (n : ℤ) = steps) ↔ (i + ((n + 1 : ℕ) : ℤ) = steps) := by
          push_cast; constructor <;> intro h <;> omega
        simp only [hi, if_false, hn, true_and, Nat.succ_pos, e]

theorem strokeLoop_total (props : Properties) (bw op bs D : ℚ) (b : QPointF) (steps : ℤ)
    (hs : 0 ≤ steps) (hD : 0 < steps → D ≠ 0) (a : QPointF) :
    ∃ st', strokeLoop props bw op bs D b steps steps.toNat 0 ⟨a, ⟨[]⟩, []⟩ = some st' ∧
      st'.calls = (List.range steps.toNat).map
        (fun (k : ℕ) => brushCall props bw op (dabPoint a b bs D (k : ℤ))) ∧
      st'.mLastBrushPoint = if 0 < steps then dabPoint a b bs D (steps - 1) else a := by
  rcases eq_or_lt_of_le hs with h0 | hpos
  · subst h0
    exact ⟨⟨a, ⟨[]⟩, []⟩, rfl, by simp, by simp⟩
  · have hle : (0 : ℤ) + (steps.toNat : ℤ) ≤ steps := by
      rw [Int.toNat_of_nonneg hs]; simp
    obtain ⟨st', h1, h2, h3⟩ :=
      strokeLoop_spec props bw op bs (hD hpos) b steps steps.toNat 0 ⟨a, ⟨[]⟩, []⟩ hle
    refine ⟨st', h1, ?_, ?_⟩
    · simpa using h2
    · have hn : 0 < steps.toNat := by omega
      have he : (0 : ℤ) + (steps.toNat : ℤ) = steps := by
        rw [Int.toNat_of_nonneg hs]; simp
      rw [h3]
      simp only [hn, he, hpos, true_and, if_true]

/-- What `drawStroke` does on a bitmap layer: it always returns, and its dabs are
the points `dabPoint a b brushStep distance k` for `k = 0 .. steps - 1`. -/
theorem drawStroke_bitmap (env : Env) (t : EraserTool) (hL : env.layerType = .BITMAP) :
    ∃ st : StrokeLoop,
      drawStroke env t =
        some ({ t with mCurrentWidth := currentWidth t.properties env.pressure
                       mLastBrushPoint := st.mLastBrushPoint },
          [.strokeToolDrawStroke, .interpolateStroke] ++ st.calls ++
            [.paintBitmapBufferRect st.rect,
             .refreshBitmap st.rect (refreshRadius (currentWidth t.properties env.pressure))]) ∧
      st.calls = (List.range (truncToInt ((qRound (strokeDistance env t.mLastBrushPoint
          env.currentPoint) : ℚ) / brushStep t.properties
            (currentWidth t.properties env.pressure))).toNat).map
        (fun (k : ℕ) => brushCall t.properties (currentWidth t.properties env.pressure)
          (currentOpacity t.properties env.pressure)
          (dabPoint t.mLastBrushPoint env.currentPoint
            (brushStep t.properties (currentWidth t.properties env.pressure))
            (strokeDistance env t.mLastBrushPoint env.currentPoint) (k : ℤ))) ∧
      st.mLastBrushPoint =
        if 0 < truncToInt ((qRound (strokeDistance env t.mLastBrushPoint env.currentPoint) : ℚ) /
            brushStep t.properties (currentWidth t.properties env.pressure))
        then dabPoint t.mLastBrushPoint env.currentPoint
            (brushStep t.properties (currentWidth t.properties env.pressure))
            (strokeDistance env t.mLastBrushPoint env.currentPoint)
            (truncToInt ((qRound (strokeDistance env t.mLastBrushPoint env.currentPoint) : ℚ) /
              brushStep t.properties (currentWidth t.properties env.pressure)) - 1)
        else t.mLastBrushPoint := by
  have hbs := brushStep_ge_one t.properties (currentWidth t.properties env.pressure)
  have hD := strokeDistance_nonneg env t.mLastBrushPoint env.currentPoint
  have hs := steps_nonneg hD hbs
  have hne : 0 < truncToInt ((qRound (strokeDistance env t.mLastBrushPoint env.currentPoint) : ℚ) /
      brushStep t.properties (currentWidth t.properties env.pressure)) →
      strokeDistance env t.mLastBrushPoint env.currentPoint ≠ 0 := by
    intro hpos
    have := half_le_of_steps_pos hD hpos
    linarith
  obtain ⟨st, h1, h2, h3⟩ := strokeLoop_total t.properties
    (currentWidth t.properties env.pressure) (currentOpacity t.properties env.pressure)
    (brushStep t.properties (currentWidth t.properties env.pressure))
    (strokeDistance env t.mLastBrushPoint env.currentPoint) env.currentPoint _ hs hne
    t.mLastBrushPoint
  refine ⟨st, ?_, h2, h3⟩
  simp only [drawStroke, hL, if_true, strokeSteps_eq _ hbs, h1]

theorem dabPoints_append (xs ys : List Call) :
    dabPoints (xs ++ ys) = dabPoints xs ++ dabPoints ys := by
  simp [dabPoints, List.filterMap_append]

theorem dabPoints_map_brushCall {α : Type} (props : Properties) (bw op : ℚ)
    (f : α → QPointF) (l : List α) :
    dabPoints (l.map fun k => brushCall props bw op (f k)) = l.map f := by
  induction l with
  | nil => rfl
  | cons x xs ih =>
    simp only [List.map_cons]
    rw [show brushCall props bw op (f x) :: List.map (fun k => brushCall props bw op (f k)) xs
      = [brushCall props bw op (f x)] ++ List.map (fun k => brushCall props bw op (f k)) xs
      from rfl, dabPoints_append, ih]
    rfl

/-! ## Settings -/

theorem value_setValue_same (s : QSettings) (key : String) (v d : QVariant) :
    (s.setValue key v).value key d = v := by
  simp [QSettings.value, QSettings.setValue]

theorem value_setValue_other (s : QSettings) {key k : String} (h : k ≠ key) (v d : QVariant) :
    (s.setValue key v).value k d = s.value k d := by
  simp [QSettings.value, QSettings.setValue, h]

/-- C1, as amended: for each of width, feather, useFeather, pressure and
stabilizerLevel, and for every prior tool state and settings store, `setP(v)`
followed by `loadSettings()` leaves `properties.P` equal to `v`.  For the
anti-aliasing mode, `setAA(v)` followed by `loadSettings()` leaves
`properties.useAA` equal to `v` when the stored `eraserUseFeather` is false, and
equal to `-1` when it is true or absent. -/
theorem settings_round_trip (w : World) :
    (∀ v, (setWidth v w).load.tool.properties.width = v) ∧
    (∀ v, (setFeather v w).load.tool.properties.feather = v) ∧
    (∀ v, (setUseFeather v w).load.tool.properties.useFeather = v) ∧
    (∀ v, (setPressure v w).load.tool.properties.pressure = v) ∧
    (∀ v, (setStabilizerLevel v w).load.tool.properties.stabilizerLevel = v) ∧
    (∀ v, (setAA v w).load.tool.properties.useAA =
      if (w.settings.value "eraserUseFeather" (.bool true)).toBool then -1 else v) := by
  refine ⟨?_, ?_, ?_, ?_, ?_, ?_⟩ <;> intro v
  · simp only [World.load, loadSettings, setWidth, value_setValue_same]
    split_ifs <;> rfl
  · simp only [World.load, loadSettings, setFeather, value_setValue_same]
    split_ifs <;> rfl
  · simp only [World.load, loadSettings, setUseFeather, value_setValue_same]
    split_ifs <;> rfl
  · simp only [World.load, loadSettings, setPressure, value_setValue_same]
    split_ifs <;> rfl
  · simp only [World.load, loadSettings, setStabilizerLevel, value_setValue_same]
    split_ifs <;> rfl
  · have hk : ("eraserUseFeather" : String) ≠ "eraserAA" := by decide
    simp only [World.load, loadSettings, setAA, value_setValue_same,
      value_setValue_other _ hk]
    split_ifs <;> rfl

/-- C1 fails as stated for the anti-aliasing mode: on an empty settings store,
`setAA(1)` followed by `loadSettings()` leaves `properties.useAA` at `-1`. -/
theorem settings_round_trip_fails_for_AA :
    (setAA 1 ⟨EraserTool.initial, QSettings.empty⟩).load.tool.properties.useAA = -1 ∧
    (setAA 1 ⟨EraserTool.initial, QSettings.empty⟩).load.tool.properties.useAA ≠ 1 := by
  decide

theorem AutoInvariant_apply (op : SettingsOp) (h : op.keepsAuto = true) (w : World)
    (hw : AutoInvariant w.tool.properties) : AutoInvariant (op.apply w).tool.properties := by
  cases op with
  | resetToDefault => simp [SettingsOp.keepsAuto] at h
  | setWidth v => exact hw
  | setFeather v => exact hw
  | setUseFeather v =>
    simp only [SettingsOp.keepsAuto, Bool.not_eq_true'] at h
    subst h
    intro hf
    simp [SettingsOp.apply, setUseFeather] at hf
  | setPressure v => exact hw
  | setAA v =>
    simp only [SettingsOp.keepsAuto, decide_eq_true_eq] at h
    subst h
    intro _
    rfl
  | setStabilizerLevel v => exact hw

theorem AutoInvariant_runOps (ops : List SettingsOp) :
    ∀ w : World, (∀ op ∈ ops, op.keepsAuto = true) → AutoInvariant w.tool.properties →
      AutoInvariant (runOps ops w).tool.properties := by
  induction ops with
  | nil => intro w _ hw; exact hw
  | cons op ops ih =>
    intro w h hw
    have h1 : op.keepsAuto = true := h op (List.mem_cons_self _ _)
    have h2 : ∀ o ∈ ops, o.keepsAuto = true := fun o ho => h o (List.mem_cons_of_mem _ ho)
    exact ih (op.apply w) h2 (AutoInvariant_apply op h1 w hw)

theorem AutoInvariant_loadSettings (settings : QSettings) (t : EraserTool) :
    AutoInvariant (loadSettings settings t).properties := by
  intro h
  simp only [loadSettings] at h ⊢
  split_ifs at h ⊢ with hf
  · rfl
  · exact absurd h hf

/-- C2, as amended: in every state reached from `loadSettings()` by a sequence of
`setWidth`, `setFeather`, `setPressure`, `setStabilizerLevel`,
`setUseFeather(false)` and `setAA(-1)` calls, if `properties.useFeather` is true
then `properties.useAA` is `-1`. -/
theorem invariant_kept_by_plain_setters (w : World) (ops : List SettingsOp)
    (h : ∀ op ∈ ops, op.keepsAuto = true) :
    AutoInvariant (runOps ops w.load).tool.properties :=
  AutoInvariant_runOps ops w.load h (AutoInvariant_loadSettings w.settings w.tool)

/-- Witness of C2: three invariant preserving calls after `loadSettings()` on an
empty settings store. -/
theorem invariant_kept_by_plain_setters_witness :
    (∀ op ∈ [SettingsOp.setWidth 10, SettingsOp.setUseFeather false, SettingsOp.setAA (-1)],
      op.keepsAuto = true) ∧
    AutoInvariant (runOps [SettingsOp.setWidth 10, SettingsOp.setUseFeather false,
      SettingsOp.setAA (-1)] (World.load ⟨EraserTool.initial, QSettings.empty⟩)).tool.properties :=
  ⟨by simp [SettingsOp.keepsAuto],
   invariant_kept_by_plain_setters ⟨EraserTool.initial, QSettings.empty⟩ _
     (by simp [SettingsOp.keepsAuto])⟩

/-- C2 fails as stated: after `loadSettings()` on an empty settings store, each
of `resetToDefault()`, `setAA(1)` and
`setUseFeather(false); setAA(1); setUseFeather(true)` reaches a state in which
`useFeather` is true and `useAA` is `1`. -/
theorem invariant_broken_by_setters :
    ¬ AutoInvariant (runOps [SettingsOp.resetToDefault]
        (World.load ⟨EraserTool.initial, QSettings.empty⟩)).tool.properties ∧
    ¬ AutoInvariant (runOps [SettingsOp.setAA 1]
        (World.load ⟨EraserTool.initial, QSettings.empty⟩)).tool.properties ∧
    ¬ AutoInvariant (runOps [SettingsOp.setUseFeather false, SettingsOp.setAA 1,
        SettingsOp.setUseFeather true]
        (World.load ⟨EraserTool.initial, QSettings.empty⟩)).tool.properties := by
  unfold AutoInvariant
  decide

/-- C3: after `loadSettings()`, whatever the settings store holds,
`properties.useFeather` is the stored `eraserUseFeather` (true when absent), and
`properties.useAA` is `-1` if `properties.useFeather` is true and otherwise the
stored `eraserAA` value converted with `toInt` (`1` when the key is absent). -/
theorem loadSettings_useAA (settings : QSettings) (t : EraserTool) :
    (loadSettings settings t).properties.useFeather =
      (match settings "eraserUseFeather" with
        | none => true
        | some v => v.toBool) ∧
    (loadSettings settings t).properties.useAA =
      if (loadSettings settings t).properties.useFeather = true then -1
      else (match settings "eraserAA" with
        | none => 1
        | some v => v.toInt) := by
  simp only [loadSettings, QSettings.value]
  cases h1 : settings "eraserUseFeather" with
  | none => simp [QVariant.toBool]
  | some v =>
    cases h2 : settings "eraserAA" with
    | none =>
      cases hv : v.toBool <;> simp [hv, QVariant.toInt]
    | some u =>
      cases hv : v.toBool <;> simp [hv]

/-! ## Reading the calls of `drawStroke` -/

theorem currentWidth_eq_effectiveWidth (props : Properties) (p : ℚ) :
    currentWidth props p = effectiveWidth props.width p props.pressure := by
  unfold currentWidth effectiveWidth
  split_ifs
  · ring
  · rfl

/-- What `drawStroke` does on a vector layer: it always returns, sets
`mCurrentWidth`, draws no dab, and hands no width but `mCurrentWidth` to the
canvas. -/
theorem drawStroke_vector (env : Env) (t : EraserTool) (hL : env.layerType = .VECTOR) :
    ∃ calls : List Call,
      drawStroke env t =
        some ({ t with mCurrentWidth := currentWidth t.properties env.pressure }, calls) ∧
      dabPoints calls = [] ∧ vertexQueries calls = [] ∧ setSelectedCalls calls = [] ∧
      (∀ sel, selectionAfter sel calls = sel) ∧
      (∀ x ∈ canvasWidths calls, x = currentWidth t.properties env.pressure) := by
  have hne : ¬ (LayerType.VECTOR = LayerType.BITMAP) := by decide
  simp only [drawStroke, hL, hne, if_false, if_true]
  split
  · refine ⟨_, rfl, rfl, rfl, rfl, fun _ => rfl, ?_⟩
    intro x hx
    simpa [canvasWidths] using hx
  · refine ⟨_, rfl, rfl, rfl, rfl, fun _ => rfl, ?_⟩
    intro x hx
    simp [canvasWidths] at hx

theorem drawStroke_other (env : Env) (t : EraserTool) (h1 : env.layerType ≠ .BITMAP)
    (h2 : env.layerType ≠ .VECTOR) :
    drawStroke env t = some (t, [.strokeToolDrawStroke, .interpolateStroke]) := by
  simp [drawStroke, h1, h2]

/-! ## Brush width -/

/-- C5: on a bitmap layer, a press followed by a release with no move in
between, the release point less than 1 unit from the press point, issues exactly
one `drawBrush`, at the press point, and `drawStroke` is not run (neither
`StrokeTool::drawStroke()` nor `interpolateStroke()` is called). -/
theorem single_dab_on_click (envP envR : Env) (t : EraserTool)
    (hL : envR.layerType = .BITMAP)
    (hd : lengthSq envR.currentPoint envP.currentPoint < 1) :
    ∃ t' calls,
      pointerReleaseEvent envR (pointerPressEvent envP t).1 = some (t', calls) ∧
      drawBrushCalls ((pointerPressEvent envP t).2 ++ calls) =
        [brushCall t.properties (currentWidth t.properties envR.pressure)
          (currentOpacity t.properties envR.pressure) envP.currentPoint] ∧
      dabPoints ((pointerPressEvent envP t).2 ++ calls) = [envP.currentPoint] ∧
      Call.strokeToolDrawStroke ∉ (pointerPressEvent envP t).2 ++ calls ∧
      Call.interpolateStroke ∉ (pointerPressEvent envP t).2 ++ calls := by
  have hlt : envR.lineLength envR.currentPoint envP.currentPoint < 1 :=
    (envR.lineLength_lt_one_iff _ _).mpr hd
  have hrel : pointerReleaseEvent envR (pointerPressEvent envP t).1 =
      some ((paintAt envR envP.currentPoint (pointerPressEvent envP t).1).1,
        [.backup] ++ (paintAt envR envP.currentPoint (pointerPressEvent envP t).1).2 ++
          removeVectorPaint envR ++ [.endStroke]) := by
    have hm : (pointerPressEvent envP t).1.mMouseDownPoint = envP.currentPoint := rfl
    unfold pointerReleaseEvent
    simp only [hm, hlt, if_true]
  refine ⟨_, _, hrel, ?_, ?_, ?_, ?_⟩
  · simp [pointerPressEvent, paintAt, hL, removeVectorPaint, drawBrushCalls, brushCall]
  · simp [pointerPressEvent, paintAt, hL, removeVectorPaint, dabPoints, brushCall]
  · simp [pointerPressEvent, paintAt, hL, removeVectorPaint, brushCall]
  · simp [pointerPressEvent, paintAt, hL, removeVectorPaint, brushCall]

/-- Witness of C5: press and release at the origin on a bitmap layer. -/
theorem single_dab_on_click_witness :
    ∃ t' calls,
      pointerReleaseEvent (Env.example .BITMAP 1 ⟨0, 0⟩)
        (pointerPressEvent (Env.example .BITMAP 1 ⟨0, 0⟩)
          (EraserTool.withProperties ⟨24, 48, true, true, -1, 0, 0, -1⟩)).1 = some (t', calls) ∧
      dabPoints ((pointerPressEvent (Env.example .BITMAP 1 ⟨0, 0⟩)
        (EraserTool.withProperties ⟨24, 48, true, true, -1, 0, 0, -1⟩)).2 ++ calls) =
        [⟨0, 0⟩] := by
  obtain ⟨t', calls, h1, _, h3, _⟩ := single_dab_on_click (Env.example .BITMAP 1 ⟨0, 0⟩)
    (Env.example .BITMAP 1 ⟨0, 0⟩)
    (EraserTool.withProperties ⟨24, 48, true, true, -1, 0, 0, -1⟩) rfl
    (by norm_num [Env.example, lengthSq])
  exact ⟨t', calls, h1, h3⟩

/-! ## Step spacing -/

/-- C6: for every width, feather, pressure setting and pressure sample, in range
or not, the `brushStep` of `drawStroke` is at least 1, hence positive, and the
division of the rounded distance by `brushStep` is defined. -/
theorem step_spacing_ge_one (props : Properties) (pressure distance : ℚ) :
    1 ≤ brushStep props (currentWidth props pressure) ∧
    0 < brushStep props (currentWidth props pressure) ∧
    strokeSteps distance (brushStep props (currentWidth props pressure)) =
      some (truncToInt ((qRound distance : ℚ) / brushStep props (currentWidth props pressure))) := by
  have h : 1 ≤ brushStep props (currentWidth props pressure) := qMax_ge_left _ _
  exact ⟨h, by linarith, strokeSteps_eq distance h⟩

/-- C7, as amended: the step spacing of `drawStroke` on a bitmap layer is
`max(1, 0.5*bw - (feather/100)*0.5*bw)` with `bw` the effective brush width,
`(w + p*w)/2` when pressure sensitivity is enabled and the configured width `w`
when it is not.  With pressure sensitivity disabled it is therefore
`max(1, 0.5*w - (feather/100)*0.5*w)`, and with `w = 24` it is 12 for feather 0
and 1 for feather 100, whatever the pressure sample. -/
theorem step_spacing_formula (props : Properties) (pressure : ℚ) :
    brushStep props (currentWidth props pressure) =
      max 1 ((1/2) * effectiveWidth props.width pressure props.pressure -
        (props.feather / 100) * (1/2) * effectiveWidth props.width pressure props.pressure) ∧
    (props.pressure = false →
      brushStep props (currentWidth props pressure) =
        max 1 ((1/2) * props.width - (props.feather / 100) * (1/2) * props.width)) ∧
    (props.pressure = false → props.width = 24 → props.feather = 0 →
      brushStep props (currentWidth props pressure) = 12) ∧
    (props.pressure = false → props.width = 24 → props.feather = 100 →
      brushStep props (currentWidth props pressure) = 1) := by
  have h1 : brushStep props (currentWidth props pressure) =
      max 1 ((1/2) * effectiveWidth props.width pressure props.pressure -
        (props.feather / 100) * (1/2) * effectiveWidth props.width pressure props.pressure) := by
    rw [brushStep, qMax_eq_max, currentWidth_eq_effectiveWidth]
    congr 1
    ring
  refine ⟨h1, ?_, ?_, ?_⟩
  · intro hp
    rw [h1]
    simp [effectiveWidth, hp]
  · intro hp hw hf
    rw [h1]
    simp only [effectiveWidth, hp, hw, hf]
    norm_num
  · intro hp hw hf
    rw [h1]
    simp only [effectiveWidth, hp, hw, hf]
    norm_num

/-- Witness of C7: width 24, feather 0, pressure sensitivity off, pressure
sample 1/2: the step spacing is 12. -/
theorem step_spacing_formula_witness :
    brushStep ⟨24, 0, true, false, -1, 0, 0, -1⟩
      (currentWidth ⟨24, 0, true, false, -1, 0, 0, -1⟩ (1/2)) = 12 :=
  (step_spacing_formula ⟨24, 0, true, false, -1, 0, 0, -1⟩ (1/2)).2.2.1 rfl rfl rfl

theorem dabPoints_drawStroke_bitmap (env : Env) (t : EraserTool)
    (hL : env.layerType = .BITMAP) :
    ∃ t' calls, drawStroke env t = some (t', calls) ∧
      dabPoints calls = (List.range (truncToInt ((qRound (strokeDistance env t.mLastBrushPoint
          env.currentPoint) : ℚ) / brushStep t.properties
            (currentWidth t.properties env.pressure))).toNat).map
        (fun (k : ℕ) => dabPoint t.mLastBrushPoint env.currentPoint
            (brushStep t.properties (currentWidth t.properties env.pressure))
            (strokeDistance env t.mLastBrushPoint env.currentPoint) (k : ℤ)) ∧
      t'.mLastBrushPoint =
        if 0 < truncToInt ((qRound (strokeDistance env t.mLastBrushPoint env.currentPoint) : ℚ) /
            brushStep t.properties (currentWidth t.properties env.pressure))
        then dabPoint t.mLastBrushPoint env.currentPoint
            (brushStep t.properties (currentWidth t.properties env.pressure))
            (strokeDistance env t.mLastBrushPoint env.currentPoint)
            (truncToInt ((qRound (strokeDistance env t.mLastBrushPoint env.currentPoint) : ℚ) /
              brushStep t.properties (currentWidth t.properties env.pressure)) - 1)
        else t.mLastBrushPoint := by
  obtain ⟨st, h1, h2, h3⟩ := drawStroke_bitmap env t hL
  refine ⟨_, _, h1, ?_, h3⟩
  rw [dabPoints_append, dabPoints_append, h2, dabPoints_map_brushCall]
  simp [dabPoints]

/-- C7 fails as stated: with width 24, feather 0, pressure sensitivity on and a
pressure sample of 1/2 the step spacing is 9, not `max(1, 0.5*24) = 12`; a
stroke from (0,0) to (3,0) places its dab at (9/4, 0). -/
theorem step_spacing_depends_on_pressure :
    brushStep ⟨24, 0, true, true, -1, 0, 0, -1⟩
      (currentWidth ⟨24, 0, true, true, -1, 0, 0, -1⟩ (1/2)) = 9 ∧
    max (1 : ℚ) ((1/2) * 24 - (0 / 100) * (1/2) * 24) = 12 ∧
    ∃ t' calls, drawStroke (Env.example .BITMAP (1/2) ⟨3, 0⟩)
        (EraserTool.withProperties ⟨24, 0, true, true, -1, 0, 0, -1⟩) = some (t', calls) ∧
      dabPoints calls = [⟨9/4, 0⟩] := by
  have hbs : brushStep ⟨24, 0, true, true, -1, 0, 0, -1⟩
      (currentWidth ⟨24, 0, true, true, -1, 0, 0, -1⟩ (1/2)) = 9 := by
    norm_num [brushStep, currentWidth, qMax]
  refine ⟨hbs, by norm_num, ?_⟩
  obtain ⟨t', calls, h1, h2, _⟩ := dabPoints_drawStroke_bitmap
    (Env.example .BITMAP (1/2) ⟨3, 0⟩)
    (EraserTool.withProperties ⟨24, 0, true, true, -1, 0, 0, -1⟩) rfl
  refine ⟨t', calls, h1, ?_⟩
  have hbs2 : brushStep
      (EraserTool.withProperties ⟨24, 0, true, true, -1, 0, 0, -1⟩).properties
      (currentWidth (EraserTool.withProperties ⟨24, 0, true, true, -1, 0, 0, -1⟩).properties
        (Env.example .BITMAP (1/2) ⟨3, 0⟩).pressure) = 9 := hbs
  have hD : strokeDistance (Env.example .BITMAP (1/2) ⟨3, 0⟩)
      (EraserTool.withProperties ⟨24, 0, true, true, -1, 0, 0, -1⟩).mLastBrushPoint
      (Env.example .BITMAP (1/2) ⟨3, 0⟩).currentPoint = 12 := by
    show 4 * (Env.example .BITMAP (1/2) ⟨3, 0⟩).lineLength ⟨3, 0⟩ ⟨0, 0⟩ = 12
    rw [example_lineLength_eq_of_sq _ _ _ (show (0 : ℚ) ≤ 3 by norm_num)
      (by norm_num [lengthSq])]
    norm_num
  have hr : qRound 12 = 12 := by
    norm_num [qRound, truncToInt]
  have hs : truncToInt (((12 : ℤ) : ℚ) / 9) = 1 := by
    norm_num [truncToInt, Int.floor_eq_iff]
  rw [h2, hbs2, hD, hr, hs]
  norm_num [dabPoint, QPointF.add, List.range_succ, Env.example, EraserTool.withProperties,
    EraserTool.initial]

/-! ## Vertex selection -/

theorem vertexQueries_append (xs ys : List Call) :
    vertexQueries (xs ++ ys) = vertexQueries xs ++ vertexQueries ys := by
  simp [vertexQueries, List.filterMap_append]

theorem setSelectedCalls_append (xs ys : List Call) :
    setSelectedCalls (xs ++ ys) = setSelectedCalls xs ++ setSelectedCalls ys := by
  simp [setSelectedCalls, List.filterMap_append]

theorem vertexQueries_map_setSelected (l : List VertexRef) :
    vertexQueries (l.map fun v => Call.setSelected v true) = [] := by
  induction l with
  | nil => rfl
  | cons x xs ih => simp [vertexQueries]

theorem setSelectedCalls_map_setSelected (l : List VertexRef) :
    setSelectedCalls (l.map fun v => Call.setSelected v true) = l.map fun v => (v, true) := by
  induction l with
  | nil => rfl
  | cons x xs ih => simpa [setSelectedCalls] using ih

theorem selectionAfter_append (xs ys : List Call) :
    ∀ sel, selectionAfter sel (xs ++ ys) = selectionAfter (selectionAfter sel xs) ys := by
  induction xs with
  | nil => intro sel; rfl
  | cons x xs ih =>
    intro sel
    cases x <;> simp only [List.cons_append, selectionAfter] <;> exact ih _

theorem selectionAfter_map_setSelected (l : List VertexRef) :
    ∀ (sel : VertexRef → Bool) (v : VertexRef),
      selectionAfter sel (l.map fun u => Call.setSelected u true) v =
        (sel v || decide (v ∈ l)) := by
  induction l with
  | nil => intro sel v; simp [selectionAfter]
  | cons x xs ih =>
    intro sel v
    simp only [List.map_cons, selectionAfter, ih, List.mem_cons]
    by_cases hv : v = x
    · simp [hv]
    · simp [hv]

/-- C8: on a vector layer, whatever the pressure setting and sample,
`updateStrokes` returns, makes exactly one `getVerticesCloseTo` query, at the
current point with radius `properties.width / 2`, and issues `setSelected(v, true)`
for exactly the vertices the query returns; a vertex is selected afterwards iff
it was selected before or was returned by the query.  Hence, if the query returns
only vertices within the radius, every vertex that changes from unselected to
selected lies within `width / 2` of the current point. -/
theorem vector_selection_radius (env : Env) (t : EraserTool)
    (hL : env.layerType = .VECTOR) :
    ∃ t' calls, updateStrokes env t = some (t', calls) ∧
      vertexQueries calls = [(env.currentPoint, t.properties.width / 2)] ∧
      setSelectedCalls calls =
        (env.verticesCloseTo env.currentPoint (t.properties.width / 2)).map
          (fun v => (v, true)) ∧
      (∀ (sel : VertexRef → Bool) (v : VertexRef),
        selectionAfter sel calls v =
          (sel v || decide (v ∈ env.verticesCloseTo env.currentPoint
            (t.properties.width / 2)))) ∧
      (∀ pos : VertexRef → QPointF,
        (∀ v ∈ env.verticesCloseTo env.currentPoint (t.properties.width / 2),
          withinRadius (pos v) env.currentPoint (t.properties.width / 2)) →
        ∀ (sel : VertexRef → Bool) (v : VertexRef), sel v = false →
          selectionAfter sel calls v = true →
          withinRadius (pos v) env.currentPoint (t.properties.width / 2)) := by
  obtain ⟨dcalls, h1, _, h3, h4, h5, _⟩ := drawStroke_vector env t hL
  have hne : ¬ (LayerType.VECTOR = LayerType.BITMAP) := by decide
  have hupd : updateStrokes env t =
      some ({ t with mCurrentWidth := currentWidth t.properties env.pressure },
        dcalls ++ [.getVerticesCloseTo env.currentPoint (t.properties.width / 2)]
          ++ (env.verticesCloseTo env.currentPoint (t.properties.width / 2)).map
              (fun nearbyVertice => Call.setSelected nearbyVertice true)
          ++ [.setAllDirty]) := by
    simp only [updateStrokes, hL, hne, false_or, if_true, h1]
  have hsel : ∀ (sel : VertexRef → Bool) (v : VertexRef),
      selectionAfter sel (dcalls ++ [.getVerticesCloseTo env.currentPoint
          (t.properties.width / 2)]
        ++ (env.verticesCloseTo env.currentPoint (t.properties.width / 2)).map
            (fun nearbyVertice => Call.setSelected nearbyVertice true)
        ++ [.setAllDirty]) v =
      (sel v || decide (v ∈ env.verticesCloseTo env.currentPoint
        (t.properties.width / 2))) := by
    intro sel v
    rw [selectionAfter_append, selectionAfter_append, selectionAfter_append, h5]
    simp only [selectionAfter]
    exact selectionAfter_map_setSelected _ sel v
  refine ⟨_, _, hupd, ?_, ?_, hsel, ?_⟩
  · rw [vertexQueries_append, vertexQueries_append, vertexQueries_append, h3,
      vertexQueries_map_setSelected]
    rfl
  · rw [setSelectedCalls_append, setSelectedCalls_append, setSelectedCalls_append, h4,
      setSelectedCalls_map_setSelected]
    simp [setSelectedCalls]
  · intro pos hq sel v hv hafter
    rw [hsel, hv, Bool.false_or, decide_eq_true_eq] at hafter
    exact hq v hafter

/-- Witness of C8: width 24 on a vector layer, the pointer at the origin, a
query that returns one vertex: the query radius is 12 and that vertex is the one
marked selected. -/
theorem vector_selection_radius_witness :
    ∃ t' calls,
      updateStrokes
        { Env.example .VECTOR (1/2) ⟨0, 0⟩ with verticesCloseTo := fun _ _ => [⟨0, 0⟩] }
        (EraserTool.withProperties ⟨24, 48, true, true, -1, 0, 0, -1⟩) = some (t', calls) ∧
      vertexQueries calls = [(⟨0, 0⟩, 12)] ∧
      setSelectedCalls calls = [(⟨0, 0⟩, true)] := by
  obtain ⟨t', calls, h1, h2, h3, _⟩ := vector_selection_radius
    { Env.example .VECTOR (1/2) ⟨0, 0⟩ with verticesCloseTo := fun _ _ => [⟨0, 0⟩] }
    (EraserTool.withProperties ⟨24, 48, true, true, -1, 0, 0, -1⟩) rfl
  refine ⟨t', calls, h1, ?_, h3⟩
  rw [h2]
  norm_num [Env.example, EraserTool.withProperties, EraserTool.initial]

/-! ## Dab placement -/

theorem dabPoint_eq_alongSegment (a b : QPointF) (s D : ℚ) (j : ℕ) :
    dabPoint a b s D (j : ℤ) = alongSegment a b (((j : ℚ) + 1) * (s / D)) := by
  simp only [dabPoint, alongSegment, QPointF.add, QPointF.smul, QPointF.sub, QPointF.mk.injEq]
  push_cast
  constructor <;> ring

/-- C9, as amended: on a bitmap layer, with `a` the last brush point, `b` the
current point, `s` the step spacing, `D = 4 * QLineF(b, a).length()` and
`steps = trunc(qRound(D) / s)`, `drawStroke` returns and places exactly `steps`
dabs; the k-th dab (`k = j + 1`, `k = 1 .. steps`) is `a + t_k * (b - a)` with
`t_k = k * t_1`, `t_1 = s / D`, and `0 < t_k`; `t_k * D ≤ qRound(D) ≤ D + 1/2`,
so that `t_k ≤ 1` whenever `D` is not rounded up, and `t_k ≤ 2` in every case;
`mLastBrushPoint` ends at the last dab placed and is unchanged when no dab is
placed. -/
theorem dab_placement (env : Env) (t : EraserTool) (hL : env.layerType = .BITMAP)
    (a b : QPointF) (s D : ℚ)
    (ha : a = t.mLastBrushPoint) (hb : b = env.currentPoint)
    (hs : s = brushStep t.properties (currentWidth t.properties env.pressure))
    (hD : D = 4 * env.lineLength b a) :
    ∃ (t' : EraserTool) (calls : List Call) (steps : ℕ),
      drawStroke env t = some (t', calls) ∧
      (steps : ℤ) = truncToInt ((qRound D : ℚ) / s) ∧
      (dabPoints calls).length = steps ∧
      (∀ j : ℕ, j < steps →
        (dabPoints calls)[j]? = some (alongSegment a b (((j : ℚ) + 1) * (s / D))) ∧
        0 < ((j : ℚ) + 1) * (s / D) ∧
        ((j : ℚ) + 1) * (s / D) * D ≤ (qRound D : ℚ) ∧
        (qRound D : ℚ) ≤ D + 1/2 ∧
        ((qRound D : ℚ) ≤ D → ((j : ℚ) + 1) * (s / D) ≤ 1) ∧
        ((j : ℚ) + 1) * (s / D) ≤ 2) ∧
      t'.mLastBrushPoint =
        (if steps = 0 then a else alongSegment a b ((steps : ℚ) * (s / D))) := by
  subst ha hb hs
  have hD' : D = strokeDistance env t.mLastBrushPoint env.currentPoint := hD
  have hs1 := brushStep_ge_one t.properties (currentWidth t.properties env.pressure)
  have hD0 : 0 ≤ D := by rw [hD']; exact strokeDistance_nonneg _ _ _
  obtain ⟨t', calls, h1, h2, h3⟩ := dabPoints_drawStroke_bitmap env t hL
  rw [← hD'] at h2 h3
  have hnn := steps_nonneg hD0 hs1
  have hmul := steps_mul_le hD0 hs1
  have hcast := Int.toNat_of_nonneg hnn
  refine ⟨t', calls, _, h1, hcast, ?_, ?_, ?_⟩
  · rw [h2]; simp
  · intro j hj
    have hjZ : ((j : ℤ) + 1) ≤ truncToInt ((qRound D : ℚ) /
        brushStep t.properties (currentWidth t.properties env.pressure)) := by omega
    have hjQ : ((j : ℚ) + 1) ≤ (truncToInt ((qRound D : ℚ) /
        brushStep t.properties (currentWidth t.properties env.pressure)) : ℚ) := by
      exact_mod_cast hjZ
    have hpos : 0 < truncToInt ((qRound D : ℚ) /
        brushStep t.properties (currentWidth t.properties env.pressure)) := by omega
    have hhalf : 1/2 ≤ D := half_le_of_steps_pos hD0 hpos
    have hDpos : 0 < D := by linarith
    have hspos : 0 < brushStep t.properties (currentWidth t.properties env.pressure) := by
      linarith
    have hjpos : (0 : ℚ) < (j : ℚ) + 1 := by positivity
    have hks : ((j : ℚ) + 1) * brushStep t.properties (currentWidth t.properties env.pressure)
        ≤ (qRound D : ℚ) :=
      le_trans (mul_le_mul_of_nonneg_right hjQ hspos.le) hmul
    have hround := qRound_le_add_half hD0
    have hcancel : ((j : ℚ) + 1) *
        (brushStep t.properties (currentWidth t.properties env.pressure) / D) * D =
        ((j : ℚ) + 1) * brushStep t.properties (currentWidth t.properties env.pressure) := by
      field_simp
    refine ⟨?_, ?_, ?_, hround, ?_, ?_⟩
    · rw [h2, List.getElem?_map, List.getElem?_range hj]
      simp only [Option.map_some']
      rw [dabPoint_eq_alongSegment]
    · exact mul_pos hjpos (div_pos hspos hDpos)
    · rw [hcancel]; exact hks
    · intro hle
      rw [← mul_div_assoc, div_le_one hDpos]
      linarith
    · rw [← mul_div_assoc, div_le_iff₀ hDpos]
      linarith
  · rw [h3]
    by_cases hz : truncToInt ((qRound D : ℚ) /
        brushStep t.properties (currentWidth t.properties env.pressure)) = 0
    · simp [hz]
    · have hpos : 0 < truncToInt ((qRound D : ℚ) /
          brushStep t.properties (currentWidth t.properties env.pressure)) := by omega
      have hN : (truncToInt ((qRound D : ℚ) /
          brushStep t.properties (currentWidth t.properties env.pressure))).toNat ≠ 0 := by omega
      obtain ⟨m, hm⟩ := Nat.exists_eq_succ_of_ne_zero hN
      have hm' : truncToInt ((qRound D : ℚ) /
          brushStep t.properties (currentWidth t.properties env.pressure)) - 1 = (m : ℤ) := by
        omega
      rw [if_pos hpos, if_neg hN, hm', dabPoint_eq_alongSegment, hm]
      push_cast
      rfl

/-- Witness of C9: width 24, feather 100, no pressure sensitivity, a stroke from
(0,0) to (3,4): the step spacing is 1, `D` is 20, twenty dabs are placed. -/
theorem dab_placement_witness :
    ∃ (t' : EraserTool) (calls : List Call),
      drawStroke (Env.example .BITMAP 1 ⟨3, 4⟩)
        (EraserTool.withProperties ⟨24, 100, true, false, -1, 0, 0, -1⟩) = some (t', calls) ∧
      (dabPoints calls).length = 20 := by
  have hlen : (Env.example .BITMAP 1 ⟨3, 4⟩).lineLength ⟨3, 4⟩ ⟨0, 0⟩ = 5 :=
    example_lineLength_eq_of_sq _ _ _ (by norm_num) (by norm_num [lengthSq])
  obtain ⟨t', calls, steps, h1, h2, h3, _⟩ := dab_placement (Env.example .BITMAP 1 ⟨3, 4⟩)
    (EraserTool.withProperties ⟨24, 100, true, false, -1, 0, 0, -1⟩) rfl
    ⟨0, 0⟩ ⟨3, 4⟩ 1 20 rfl rfl
    (by norm_num [brushStep, currentWidth, qMax, EraserTool.withProperties,
      EraserTool.initial])
    (by rw [hlen]; norm_num)
  refine ⟨t', calls, h1, ?_⟩
  have hr : truncToInt (((qRound 20 : ℤ) : ℚ) / 1) = 20 := by
    norm_num [qRound, truncToInt]
  rw [hr] at h2
  rw [h3]
  exact_mod_cast h2

/-- C9 fails as stated: with step spacing 1 (width 24, feather 100, no pressure
sensitivity), last brush point (0,0) and current point (1/8, 0), the length is
1/8, `D = 1/2` is rounded up to 1, one dab is placed, at (1/4, 0), which is
`a + 2 * (b - a)`: the dab lies beyond the current point, and `mLastBrushPoint`
moves there. -/
theorem dab_beyond_current_point :
    (Env.example .BITMAP 1 ⟨1/8, 0⟩).lineLength ⟨1/8, 0⟩ ⟨0, 0⟩ = 1/8 ∧
    ∃ (t' : EraserTool) (calls : List Call),
      drawStroke (Env.example .BITMAP 1 ⟨1/8, 0⟩)
        (EraserTool.withProperties ⟨24, 100, true, false, -1, 0, 0, -1⟩) = some (t', calls) ∧
      dabPoints calls = [⟨1/4, 0⟩] ∧
      t'.mLastBrushPoint = ⟨1/4, 0⟩ ∧
      alongSegment ⟨0, 0⟩ ⟨1/8, 0⟩ 2 = ⟨1/4, 0⟩ ∧
      ¬ ∃ τ : ℚ, τ ≤ 1 ∧ alongSegment ⟨0, 0⟩ ⟨1/8, 0⟩ τ = ⟨1/4, 0⟩ := by
  have hlen : (Env.example .BITMAP 1 ⟨1/8, 0⟩).lineLength ⟨1/8, 0⟩ ⟨0, 0⟩ = 1/8 :=
    example_lineLength_eq_of_sq _ _ _ (by norm_num) (by norm_num [lengthSq])
  refine ⟨hlen, ?_⟩
  obtain ⟨t', calls, h1, h2, h3⟩ := dabPoints_drawStroke_bitmap
    (Env.example .BITMAP 1 ⟨1/8, 0⟩)
    (EraserTool.withProperties ⟨24, 100, true, false, -1, 0, 0, -1⟩) rfl
  have hbs : brushStep
      (EraserTool.withProperties ⟨24, 100, true, false, -1, 0, 0, -1⟩).properties
      (currentWidth (EraserTool.withProperties ⟨24, 100, true, false, -1, 0, 0, -1⟩).properties
        (Env.example .BITMAP 1 ⟨1/8, 0⟩).pressure) = 1 := by
    norm_num [brushStep, currentWidth, qMax, EraserTool.withProperties, EraserTool.initial]
  have hD : strokeDistance (Env.example .BITMAP 1 ⟨1/8, 0⟩)
      (EraserTool.withProperties ⟨24, 100, true, false, -1, 0, 0, -1⟩).mLastBrushPoint
      (Env.example .BITMAP 1 ⟨1/8, 0⟩).currentPoint = 1/2 := by
    show 4 * (Env.example .BITMAP 1 ⟨1/8, 0⟩).lineLength ⟨1/8, 0⟩ ⟨0, 0⟩ = 1/2
    rw [hlen]
    norm_num
  have hr : qRound (1/2) = 1 := by
    norm_num [qRound, truncToInt]
  have hs : truncToInt (((1 : ℤ) : ℚ) / 1) = 1 := by
    norm_num [truncToInt]
  rw [hbs, hD, hr, hs] at h2 h3
  refine ⟨t', calls, h1, ?_, ?_, ?_, ?_⟩
  · rw [h2]
    norm_num [dabPoint, QPointF.add, List.range_succ, Env.example,
      EraserTool.withProperties, EraserTool.initial]
  · rw [h3]
    norm_num [dabPoint, QPointF.add, Env.example, EraserTool.withProperties,
      EraserTool.initial]
  · norm_num [alongSegment, QPointF.add, QPointF.smul, QPointF.sub]
  · rintro ⟨τ, hτ, heq⟩
    simp only [alongSegment, QPointF.add, QPointF.smul, QPointF.sub, QPointF.mk.injEq] at heq
    have := heq.1
    linarith

/-! ## No division by zero -/

/-- C10: `drawStroke` never divides by zero: for every tool state and every
input it returns.  Whenever `distance = 4 * |b - a|` is below 1/2 the loop count
`steps` is 0, no dab is placed and `mLastBrushPoint` is unchanged; whenever a dab
is placed, so that the division by `distance` is executed, `distance` is at
least 1/2, hence positive; in particular a zero-length segment places no dab. -/
theorem no_division_by_zero (env : Env) (t : EraserTool) :
    ∃ r, drawStroke env t = some r ∧
      (strokeDistance env t.mLastBrushPoint env.currentPoint < 1/2 →
        strokeSteps (strokeDistance env t.mLastBrushPoint env.currentPoint)
          (brushStep t.properties (currentWidth t.properties env.pressure)) = some 0 ∧
        dabPoints r.2 = [] ∧ r.1.mLastBrushPoint = t.mLastBrushPoint) ∧
      (dabPoints r.2 ≠ [] →
        1/2 ≤ strokeDistance env t.mLastBrushPoint env.currentPoint ∧
        0 < strokeDistance env t.mLastBrushPoint env.currentPoint) ∧
      (env.currentPoint = t.mLastBrushPoint →
        dabPoints r.2 = [] ∧ r.1.mLastBrushPoint = t.mLastBrushPoint) := by
  have hs1 := brushStep_ge_one t.properties (currentWidth t.properties env.pressure)
  have hD0 := strokeDistance_nonneg env t.mLastBrushPoint env.currentPoint
  have hsteps0 : strokeDistance env t.mLastBrushPoint env.currentPoint < 1/2 →
      truncToInt ((qRound (strokeDistance env t.mLastBrushPoint env.currentPoint) : ℚ) /
        brushStep t.properties (currentWidth t.properties env.pressure)) = 0 := by
    intro hlt
    rw [qRound_eq_zero_of_lt_half hD0 hlt]
    simp [truncToInt_zero]
  have hself : env.currentPoint = t.mLastBrushPoint →
      strokeDistance env t.mLastBrushPoint env.currentPoint < 1/2 := by
    intro h
    rw [h, strokeDistance, env.lineLength_self]
    norm_num
  cases hL : env.layerType with
  | BITMAP =>
    obtain ⟨t', calls, h1, h2, h3⟩ := dabPoints_drawStroke_bitmap env t hL
    have hsmall : strokeDistance env t.mLastBrushPoint env.currentPoint < 1/2 →
        dabPoints calls = [] ∧ t'.mLastBrushPoint = t.mLastBrushPoint := by
      intro hlt
      rw [h2, h3, hsteps0 hlt]
      simp
    refine ⟨(t', calls), h1, ?_, ?_, ?_⟩
    · intro hlt
      exact ⟨by rw [strokeSteps_eq _ hs1, hsteps0 hlt], hsmall hlt⟩
    · intro hne
      have hhalf : 1/2 ≤ strokeDistance env t.mLastBrushPoint env.currentPoint := by
        by_contra hlt
        exact hne (hsmall (not_le.mp hlt)).1
      exact ⟨hhalf, by linarith⟩
    · intro h
      exact hsmall (hself h)
  | VECTOR =>
    obtain ⟨calls, h1, h2, _⟩ := drawStroke_vector env t hL
    refine ⟨_, h1, ?_, ?_, ?_⟩
    · intro hlt
      exact ⟨by rw [strokeSteps_eq _ hs1, hsteps0 hlt], h2, rfl⟩
    · intro hne
      exact absurd h2 hne
    · intro _
      exact ⟨h2, rfl⟩
  | OTHER =>
    have e1 : env.layerType ≠ .BITMAP := by rw [hL]; decide
    have e2 : env.layerType ≠ .VECTOR := by rw [hL]; decide
    refine ⟨_, drawStroke_other env t e1 e2, ?_, ?_, ?_⟩
    · intro hlt
      exact ⟨by rw [strokeSteps_eq _ hs1, hsteps0 hlt], rfl, rfl⟩
    · intro hne
      exact absurd rfl hne
    · intro _
      exact ⟨rfl, rfl⟩

/-- Witness of C10: a zero-length segment on a bitmap layer; `drawStroke`
returns and places no dab. -/
theorem no_division_by_zero_witness :
    ∃ r, drawStroke (Env.example .BITMAP 1 ⟨0, 0⟩)
        (EraserTool.withProperties ⟨24, 48, true, true, -1, 0, 0, -1⟩) = some r ∧
      dabPoints r.2 = [] := by
  obtain ⟨r, h1, _, _, h4⟩ := no_division_by_zero (Env.example .BITMAP 1 ⟨0, 0⟩)
    (EraserTool.withProperties ⟨24, 48, true, true, -1, 0, 0, -1⟩)
  exact ⟨r, h1, (h4 rfl).1⟩

end Pencil
